import Mathlib

set_option maxHeartbeats 1000000

namespace FieldTakes

/-! Shallow embedding of the take-logging core of src/src/app/page.tsx.
Strings are Lean strings (lists of characters); JS numbers that the core only ever
holds as integers are modelled as Int; impure reads (current date, uuid(), new Date(),
confirm()) are passed in as explicit parameters. -/

/-- Fuel-driven digit rendering; the fuel only makes the recursion structural and is
never exhausted when it starts at least one above the number. -/
def natToCharsAux : Nat → Nat → List Char
  | 0, _ => []
  | fuel + 1, n =>
      if n < 10 then [Nat.digitChar n]
      else natToCharsAux fuel (n / 10) ++ [Nat.digitChar (n % 10)]

/-- Decimal digit characters of a natural number, most significant digit first; this is
the rendering of a non-negative integral JS number by String() or a template literal. -/
def natToChars (n : Nat) : List Char := natToCharsAux (n + 1) n

/-- Rendering of an integral JS number by String() or a template literal. -/
def intToChars (i : Int) : List Char :=
  if i < 0 then '-' :: natToChars i.natAbs else natToChars i.toNat

/-- String form of intToChars. -/
def intToStr (i : Int) : String := String.mk (intToChars i)

/-- Value accumulated by parseInt over a run of decimal digit characters. -/
def charsVal (cs : List Char) : Nat :=
  cs.foldl (fun a c => a * 10 + (c.toNat - 48)) 0

/-- Letter accepted by the suffix group of the regex (a-g, case-insensitive flag). -/
def isSufLetter (c : Char) : Bool :=
  ('a' ≤ c && c ≤ 'g') || ('A' ≤ c && c ≤ 'G')

/-- Whitespace skipped by JS parseInt and stripped by trim (the ASCII part). -/
def isJsWS (c : Char) : Bool :=
  c = ' ' || c = '\t' || c = '\n' || c = '\r' || c = '\x0b' || c = '\x0c'

/-- Longest leading digit run, as consumed by parseInt; none when there is no digit. -/
def digPreVal (cs : List Char) : Option Nat :=
  let ds := cs.takeWhile Char.isDigit
  if ds.isEmpty then none else some (charsVal ds)

/-- Model of JS parseInt(s, 10): skip leading whitespace, optional sign, then the
longest run of decimal digits; none models the NaN result when no digit follows. -/
def parseIntJS (cs : List Char) : Option Int :=
  let cs := cs.dropWhile isJsWS
  match cs with
  | '-' :: rest => (digPreVal rest).map (fun n => -(n : Int))
  | '+' :: rest => (digPreVal rest).map (fun n => (n : Int))
  | _ => (digPreVal cs).map (fun n => (n : Int))

/-- Model of matching the anchored regex of splitNumAndSuffix (digits then an optional
single letter a-g, case-insensitive): the whole string must be a nonempty digit run
optionally followed by one such letter; returns the two captured groups. -/
def matchNumSuf (cs : List Char) : Option (List Char × List Char) :=
  let ds := cs.takeWhile Char.isDigit
  let rest := cs.dropWhile Char.isDigit
  if ds.isEmpty then none
  else
    match rest with
    | [] => some (ds, [])
    | [c] => if isSufLetter c then some (ds, [c]) else none
    | _ => none

/-- The literal sentinel token (rendered as only-cut) used for the cut number. -/
def sentinelToken : String := "オンリー"

/-- Result shape of splitNumAndSuffix. -/
structure NumSuf where
  num : Int
  suffix : String
deriving DecidableEq

/-- Translation of splitNumAndSuffix (page.tsx lines 67-72). The fallback branch is
parseInt(value with empty replaced by the string zero, 10) with NaN-or-zero collapsed
to 0 by the JS or-zero; the matched branch is parseInt of the digit group. -/
def splitNumAndSuffix (value : String) : NumSuf :=
  if value = sentinelToken then ⟨-1, ""⟩
  else
    match matchNumSuf value.data with
    | some (ds, sf) => ⟨(charsVal ds : Int), String.mk sf⟩
    | none =>
        let base := if value = "" then "0" else value
        match parseIntJS base.data with
        | some i => ⟨i, ""⟩
        | none => ⟨0, ""⟩

/-- Translation of combine (page.tsx lines 73-76). -/
def combine (num : Int) (sfx : String) : String :=
  if num = -1 then sentinelToken
  else intToStr (max 1 num) ++ sfx

/-- The suffix choices offered by the UI (page.tsx line 48). -/
def SUFFIXES : List String := ["", "a", "b", "c", "d", "e", "f", "g"]

/-- Clamp used inside Stepper, with minimum -1 for the cut variant (lines 172-173). -/
def clampCut (v : Int) : Int := if v < -1 then -1 else v

/-- Cut-variant unit decrement of the Stepper (page.tsx lines 218-232). -/
def stepperCutDec (num : Int) : Int := if num = 1 then -1 else clampCut (num - 1)

/-- Cut-variant unit increment of the Stepper (page.tsx lines 240-254). -/
def stepperCutInc (num : Int) : Int := if num = -1 then 1 else clampCut (num + 1)

/-- The draft row under construction (page.tsx lines 407-417). -/
structure Draft where
  fileNo : String
  sceneNum : Int
  sceneSuffix : String
  cutNum : Int
  cutSuffix : String
  takeNum : Int
  status : String
  mics : List String
  note : String
deriving DecidableEq

/-- Translation of setSceneNum (lines 553-555). -/
def setSceneNum (n : Int) (d : Draft) : Draft :=
  { d with sceneNum := max 1 n, cutNum := 1, cutSuffix := "", takeNum := 1 }

/-- Translation of setCutNum (lines 556-558). -/
def setCutNum (n : Int) (d : Draft) : Draft :=
  { d with cutNum := max 1 n, takeNum := 1 }

/-- Wiring of the cut Stepper onChange (lines 1021-1028): the stepped value n is
rendered by String(n), parsed back by splitNumAndSuffix, and committed into the draft
through setCutNum. -/
def cutStepperCommit (n : Int) (d : Draft) : Draft :=
  setCutNum (splitNumAndSuffix (intToStr n)).num d

/-- One recorded take (page.tsx lines 18-29); the optional note is a string with the
empty string for absence, matching every use site which applies a JS or-default. -/
structure TakeRow where
  id : String
  createdAt : String
  updatedAt : String
  fileNo : String
  sceneNo : String
  cutNo : String
  takeNo : String
  status : String
  mics : List String
  note : String
deriving DecidableEq

/-- Undo and redo snapshot of rows plus draft (page.tsx line 427). -/
structure Snapshot where
  rows : List TakeRow
  draft : Draft
deriving DecidableEq

/-- The mutable state the claims range over: the row list, the draft, and the two
history stacks (page.tsx lines 395, 407, 428-429). -/
structure AppState where
  rows : List TakeRow
  draft : Draft
  past : List Snapshot
  future : List Snapshot
deriving DecidableEq

/-- The snapshot captured by snap() (lines 432-435); structuredClone is a deep copy,
which on immutable Lean values is the identity. -/
def snapOf (s : AppState) : Snapshot := ⟨s.rows, s.draft⟩

/-- Translation of pushHistory (line 436): push the current snapshot, clear future. -/
def pushHistorySt (s : AppState) : AppState :=
  { s with past := s.past ++ [snapOf s], future := [] }

/-- Translation of undo (lines 437-443); Array push and pop act on the list end. -/
def undoSt (s : AppState) : AppState :=
  match s.past.getLast? with
  | none => s
  | some prev =>
      { rows := prev.rows, draft := prev.draft,
        past := s.past.dropLast, future := s.future ++ [snapOf s] }

/-- Translation of redo (lines 444-450). -/
def redoSt (s : AppState) : AppState :=
  match s.future.getLast? with
  | none => s
  | some nxt =>
      { rows := nxt.rows, draft := nxt.draft,
        past := s.past ++ [snapOf s], future := s.future.dropLast }

/-- Code-point lexicographic less-or-equal on character lists. -/
def lexLe : List Char → List Char → Bool
  | [], _ => true
  | _ :: _, [] => false
  | a :: as, b :: bs => a.toNat < b.toNat || (a.toNat = b.toNat && lexLe as bs)

/-- Comparator compareByFileNo (lines 371-373): localeCompare in the ja locale is
modelled as code-point lexicographic string order, with which that collation agrees on
the ASCII digit-and-underscore fileNo strings this app generates. -/
def rowLeP (a b : TakeRow) : Prop := lexLe a.fileNo.data b.fileNo.data = true

instance (a b : TakeRow) : Decidable (rowLeP a b) := by
  unfold rowLeP; infer_instance

/-- Array sort with comparator compareByFileNo, modelled as insertion sort: a sorted
stable permutation of the input, which is the contract of Array.prototype.sort with a
consistent comparator. -/
def sortRows (l : List TakeRow) : List TakeRow := l.insertionSort rowLeP

/-- Sortedness of a row list under the fileNo order. -/
def sortedByFileNo (l : List TakeRow) : Prop := l.Pairwise rowLeP

instance (l : List TakeRow) : Decidable (sortedByFileNo l) := by
  unfold sortedByFileNo; infer_instance

instance : IsTotal TakeRow rowLeP :=
  ⟨fun x y => by
    unfold rowLeP
    have h : ∀ (as bs : List Char), lexLe as bs || lexLe bs as := by
      intro as
      induction as with
      | nil => intro bs; simp [lexLe]
      | cons a as ih =>
        intro bs
        cases bs with
        | nil => simp [lexLe]
        | cons b bs =>
          simp only [lexLe, Bool.or_eq_true, Bool.and_eq_true, decide_eq_true_eq]
          rcases Nat.lt_trichotomy a.toNat b.toNat with h | h | h
          · tauto
          · have h2 := ih bs
            simp only [Bool.or_eq_true] at h2
            tauto
          · tauto
    have h2 := h x.fileNo.data y.fileNo.data
    simp only [Bool.or_eq_true] at h2
    exact h2⟩

instance : IsTrans TakeRow rowLeP :=
  ⟨fun x y z hx hy => by
    unfold rowLeP at hx hy ⊢
    have h : ∀ (as bs cs : List Char), lexLe as bs → lexLe bs cs → lexLe as cs := by
      intro as
      induction as with
      | nil => intro bs cs _ _; simp [lexLe]
      | cons a as ih =>
        intro bs cs h1 h2
        cases bs with
        | nil => simp [lexLe] at h1
        | cons b bs =>
          cases cs with
          | nil => simp [lexLe] at h2
          | cons c cs =>
            simp only [lexLe, Bool.or_eq_true, Bool.and_eq_true, decide_eq_true_eq]
              at h1 h2 ⊢
            rcases h1 with h1 | ⟨e1, r1⟩
            · rcases h2 with h2 | ⟨e2, r2⟩
              · left; omega
              · left; omega
            · rcases h2 with h2 | ⟨e2, r2⟩
              · left; omega
              · right; exact ⟨by omega, ih bs cs r1 r2⟩
    exact h _ _ _ hx hy⟩

/-- Model of startsWith on character lists (pattern first). -/
def startsWithCh : List Char → List Char → Bool
  | [], _ => true
  | _ :: _, [] => false
  | p :: ps, c :: cs => p = c && startsWithCh ps cs

/-- Model of JS split with a one-character separator string. -/
def splitCh (sep : Char) : List Char → List (List Char)
  | [] => [[]]
  | c :: cs =>
      if c = sep then [] :: splitCh sep cs
      else
        match splitCh sep cs with
        | [] => [[c]]
        | l :: ls => (c :: l) :: ls

/-- Model of padStart(3, the zero character). -/
def padStart3 (cs : List Char) : List Char :=
  List.replicate (3 - cs.length) '0' ++ cs

/-- Translation of nextFileNo (lines 57-66). The impure todayPrefix() read of the
current date is the dayPre parameter. The spread Math.max guarded by an emptiness test
with default 0 is a fold of max over the parsed values, which are all non-negative. -/
def nextFileNo (dayPre : String) (rows : List TakeRow) : String :=
  let todayRows := rows.filter (fun r => startsWithCh dayPre.data r.fileNo.data)
  if todayRows.isEmpty then dayPre ++ "_001"
  else
    let nums := todayRows.filterMap (fun r =>
      let p0 := (splitCh '_' r.fileNo.data).getD 1 []
      let part := if p0.isEmpty then ['0'] else p0
      let ds := part.filter Char.isDigit
      if ds.isEmpty then none else some (charsVal ds))
    let mx := nums.foldl max 0
    dayPre ++ "_" ++ String.mk (padStart3 (natToChars (mx + 1)))

/-- The TakeRow committed by addRow (lines 569-580); newId and now stand for the impure
uuid() and new Date().toISOString() reads. -/
def mkRowFromDraft (newId now : String) (d : Draft) : TakeRow :=
  { id := newId, createdAt := now, updatedAt := now,
    fileNo := d.fileNo,
    sceneNo := combine d.sceneNum d.sceneSuffix,
    cutNo := combine d.cutNum d.cutSuffix,
    takeNo := intToStr d.takeNum,
    status := d.status, mics := d.mics, note := d.note }

/-- JS or-zero on an integer value. -/
def jsOrZero (x : Int) : Int := if x = 0 then 0 else x

/-- Translation of addRow (lines 561-599): pushHistory runs first, then validation
(the alert and early return leave rows and draft unchanged), then insert-and-sort and
the post-commit auto-advance of the draft, whose file number is recomputed from the
already-extended row list. -/
def addRow (dayPre newId now : String) (s : AppState) : AppState :=
  let s1 := pushHistorySt s
  let sceneStr := combine s1.draft.sceneNum s1.draft.sceneSuffix
  let cutStr := combine s1.draft.cutNum s1.draft.cutSuffix
  let takeStr := intToStr s1.draft.takeNum
  if s1.draft.fileNo = "" ∨ sceneStr = "" ∨ cutStr = "" ∨ takeStr = "" then s1
  else
    let row := mkRowFromDraft newId now s1.draft
    let newRows := sortRows (s1.rows ++ [row])
    let d := s1.draft
    let d2 :=
      if d.status = "OK" then
        { d with cutNum := if d.cutNum = -1 then 1 else jsOrZero d.cutNum + 1,
                 cutSuffix := "", takeNum := 1 }
      else
        { d with takeNum := d.takeNum + 1 }
    { s1 with rows := newRows, draft := { d2 with fileNo := nextFileNo dayPre newRows } }

/-- Translation of delRow (lines 601-605); confirmed is the confirm() dialog result,
read after pushHistory has already run. -/
def delRow (confirmed : Bool) (rid : String) (s : AppState) : AppState :=
  let s1 := pushHistorySt s
  if !confirmed then s1
  else { s1 with rows := sortRows (s1.rows.filter (fun r => r.id != rid)) }

/-- Model of parseInt(t-or-the-string-one, 10) with NaN-or-zero collapsed to 1
(line 620). -/
def parseTakeNo (t : String) : Int :=
  let base := if t = "" then "1" else t
  match parseIntJS base.data with
  | some i => if i = 0 then 1 else i
  | none => 1

/-- Translation of editRow (lines 607-628): no history is recorded; the found row's
combined tokens are split back into the draft and the row is removed from the list,
which is then sorted. The mics JS or-default never fires since mics is a present
array, and the note or-default is the identity on strings. -/
def editRow (rid : String) (s : AppState) : AppState :=
  match s.rows.find? (fun r => r.id == rid) with
  | none => s
  | some r =>
      let sc := splitNumAndSuffix r.sceneNo
      let cu := splitNumAndSuffix r.cutNo
      let d2 := { s.draft with
        fileNo := r.fileNo,
        sceneNum := max 1 sc.num,
        sceneSuffix := sc.suffix,
        cutNum := if cu.num = -1 then -1 else max 1 cu.num,
        cutSuffix := cu.suffix,
        takeNum := parseTakeNo r.takeNo,
        status := r.status,
        mics := r.mics,
        note := r.note }
      { s with draft := d2, rows := sortRows (s.rows.filter (fun x => x.id != rid)) }

/-- Translation of resetCounters (lines 630-633). -/
def resetCounters (s : AppState) : AppState :=
  let s1 := pushHistorySt s
  { s1 with draft := { s1.draft with sceneNum := 1, cutNum := 1, takeNum := 1 } }

/-- The reactive file-number auto-fill effect (lines 526-529): when the draft has no
file number it is refilled from nextFileNo; no history is recorded. -/
def autoFillFileNo (dayPre : String) (s : AppState) : AppState :=
  if s.draft.fileNo = "" then
    { s with draft := { s.draft with fileNo := nextFileNo dayPre s.rows } }
  else s

/-- Common shape shared by the history-recorded mutations addRow, delRow and
resetCounters: pushHistory() first, then an update of rows and draft computed from the
current state. -/
def recordedMutation (f : List TakeRow → Draft → List TakeRow × Draft)
    (s : AppState) : AppState :=
  let s1 := pushHistorySt s
  let rd := f s1.rows s1.draft
  { s1 with rows := rd.1, draft := rd.2 }

/-- A sequence of history-recorded mutations applied in order. -/
def applyMuts (fs : List (List TakeRow → Draft → List TakeRow × Draft))
    (s : AppState) : AppState :=
  fs.foldl (fun st f => recordedMutation f st) s

/-- Escaping of one CSV field (line 88): every double quote is doubled and every
newline becomes a space; the two replaceAll passes are independent, so they fuse into
one character pass. -/
def escField : List Char → List Char
  | [] => []
  | c :: cs =>
      if c = '"' then '"' :: '"' :: escField cs
      else if c = '\n' then ' ' :: escField cs
      else c :: escField cs

/-- One encoded CSV field: the escaped content wrapped in double quotes (line 93). -/
def quoteF (f : List Char) : List Char := '"' :: (escField f ++ ['"'])

/-- Model of Array.join with a one-character separator. -/
def joinCh (sep : Char) : List (List Char) → List Char
  | [] => []
  | [x] => x
  | x :: xs => x ++ sep :: joinCh sep xs

/-- The fixed CSV header names (line 87). -/
def csvHeaders : List String :=
  ["createdAt", "fileNo", "sceneNo", "cutNo", "takeNo", "status",
   "mic1", "mic2", "mic3", "mic4", "mic5", "mic6", "mic7", "mic8", "note"]

/-- Blank-fill then truncate the mic list to 8 entries (line 92): concat of eight
empty strings followed by slice of the first eight. -/
def pad8 (l : List String) : List String := (l ++ List.replicate 8 "").take 8

/-- Field values of one encoded CSV row line, in column order (line 92); the note
or-default is the identity since note is modelled as a string. -/
def rowFields (r : TakeRow) : List String :=
  [r.createdAt, r.fileNo, r.sceneNo, r.cutNo, r.takeNo, r.status] ++ pad8 r.mics
    ++ [r.note]

/-- One encoded CSV data line: the quoted escaped fields joined by commas (line 93). -/
def encodeRowLine (r : TakeRow) : List Char :=
  joinCh ',' ((rowFields r).map (fun f => quoteF f.data))

/-- Translation of toCSV (lines 86-97). -/
def toCSV (rows : List TakeRow) : String :=
  let header := joinCh ',' (csvHeaders.map String.data)
  String.mk (joinCh '\n' (header :: rows.map encodeRowLine))

mutual
/-- Quoted-field state of the hand-rolled CSV tokenizer (lines 104-128): a doubled
quote emits one quote, a lone quote leaves the quoted state. -/
def parseQ : List Char → List Char → List (List Char)
  | [], cur => [cur]
  | '"' :: '"' :: rest, cur => parseQ rest (cur ++ ['"'])
  | '"' :: rest, cur => parseU rest cur
  | c :: rest, cur => parseQ rest (cur ++ [c])
/-- Unquoted state of the CSV tokenizer: a quote enters the quoted state, a comma
finishes the current field. -/
def parseU : List Char → List Char → List (List Char)
  | [], cur => [cur]
  | '"' :: rest, cur => parseQ rest cur
  | ',' :: rest, cur => cur :: parseU rest []
  | c :: rest, cur => parseU rest (cur ++ [c])
end

/-- Drop one carriage return at the end of a piece, as consumed together with the
following line feed by the split regex of fromCSV. -/
def dropTailCR (cs : List Char) : List Char :=
  match cs.getLast? with
  | some '\r' => cs.dropLast
  | _ => cs

/-- Strip the optional carriage return from every piece that ended at a line feed,
that is from every piece but the last. -/
def stripCRs : List (List Char) → List (List Char)
  | [] => []
  | [x] => [x]
  | x :: xs => dropTailCR x :: stripCRs xs

/-- Model of split on the optional-carriage-return-then-line-feed regex. -/
def splitLinesJS (cs : List Char) : List (List Char) := stripCRs (splitCh '\n' cs)

/-- Model of the keep test of fromCSV line 100 (trimmed length positive): trim strips
whitespace from both ends, so the trimmed length is positive exactly when some
character is not whitespace. -/
def keepLine (cs : List Char) : Bool := cs.any (fun c => !isJsWS c)

/-- Model of replacing the anchored leading-or-trailing quote pattern globally
(line 102): removes one leading and one trailing double quote when present. -/
def stripOuterQ (cs : List Char) : List Char :=
  let cs1 := match cs with
    | '"' :: rest => rest
    | _ => cs
  match cs1.getLast? with
  | some '"' => cs1.dropLast
  | _ => cs1

/-- Record built by the forEach over headers (lines 129-132): each header binds the
column at its index (empty when the column is missing); a later duplicate header
overwrites an earlier one, so lookup takes the last binding. An unknown key reads as
the empty string, which every JS or-default at the use sites treats like undefined. -/
def recGet (headers cols : List (List Char)) (key : List Char) : List Char :=
  (headers.enum.filterMap
    (fun p => if p.2 = key then some (cols.getD p.1 []) else none)).getLast?.getD []

/-- JS or on strings: the empty string is falsy. -/
def jsOr (a b : String) : String := if a = "" then b else a

/-- Decoding of one CSV data line into a TakeRow (lines 103-147): tokenize, bind the
columns to the header names, then build the row with the JS or-defaults of the source;
now is the impure new Date().toISOString() read and uuid() mints an id that is fresh
and opaque, modelled by the empty string since every stated property of decoding
disregards ids. -/
def decodeLine (now : String) (headers : List (List Char)) (line : List Char) : TakeRow :=
  let cols := parseU line []
  let fld := fun (k : String) => String.mk (recGet headers cols k.data)
  { id := "",
    createdAt := jsOr (fld "createdAt") now,
    updatedAt := now,
    fileNo := jsOr (fld "fileNo") "",
    sceneNo := jsOr (fld "sceneNo") "",
    cutNo := jsOr (fld "cutNo") "",
    takeNo := jsOr (fld "takeNo") "",
    status := jsOr (fld "status") "KEEP",
    mics := (List.range 8).map
      (fun i => jsOr (String.mk (recGet headers cols ("mic".data ++ natToChars (i + 1)))) ""),
    note := jsOr (fld "note") "" }

/-- Translation of fromCSV (lines 99-148). -/
def fromCSV (now : String) (csv : String) : List TakeRow :=
  let ls := (splitLinesJS csv.data).filter keepLine
  if ls.length < 2 then []
  else
    let headers := (splitCh ',' (ls.getD 0 [])).map stripOuterQ
    (ls.drop 1).map (decodeLine now headers)

/-- Model of String.includes. -/
def containsSub (pat : List Char) : List Char → Bool
  | [] => pat.isEmpty
  | c :: cs => startsWithCh pat (c :: cs) || containsSub pat cs

/-- Preprocessing of the imported file text (lines 652-656): when the first line holds
an audio-settings marker it is dropped before decoding. -/
def importText (text : String) : String :=
  let firstLine := (splitLinesJS text.data).getD 0 []
  if containsSub "SampleRate:".data firstLine
      || containsSub "BitDepth:".data firstLine
  then String.mk (joinCh '\n' ((splitLinesJS text.data).drop 1))
  else text

/-- Translation of importCSV (lines 647-663) applied to the already-read file text:
drop a leading audio-settings metadata line, decode, reject an empty decode with an
alert and no state change, else append the incoming rows to the current rows without
re-sorting. -/
def importCSV (now : String) (text : String) (s : AppState) : AppState :=
  let incoming := fromCSV now (importText text)
  if incoming.isEmpty then s
  else { s with rows := s.rows ++ incoming }

/-- Spec-side definition of the re-minting that the round-trip claim excepts: a fresh
id and updatedAt are minted on import and the mic list comes back blank-filled to 8. -/
def reMint (now : String) (r : TakeRow) : TakeRow :=
  { r with id := "", updatedAt := now, mics := pad8 r.mics }

/-- A string free of line-break characters. -/
def cleanStr (x : String) : Prop := '\n' ∉ x.data ∧ '\r' ∉ x.data

instance (x : String) : Decidable (cleanStr x) := by
  unfold cleanStr; infer_instance

/-- Rows on which the CSV round trip can be exact: no textual field contains a line
break (encoding collapses newlines to spaces), createdAt is nonempty (an empty one is
replaced by the import time) and status is nonempty (an empty one defaults to KEEP). -/
def cleanRow (r : TakeRow) : Prop :=
  cleanStr r.createdAt ∧ cleanStr r.fileNo ∧ cleanStr r.sceneNo ∧ cleanStr r.cutNo ∧
  cleanStr r.takeNo ∧ cleanStr r.status ∧ (∀ m ∈ r.mics, cleanStr m) ∧
  cleanStr r.note ∧ r.createdAt ≠ "" ∧ r.status ≠ ""

instance (r : TakeRow) : Decidable (cleanRow r) := by
  unfold cleanRow; infer_instance

/-- Concrete draft used to exhibit the cut boundary slip: cut number 1, no suffix. -/
def dC1 : Draft :=
  { fileNo := "250101_001", sceneNum := 1, sceneSuffix := "", cutNum := 1,
    cutSuffix := "", takeNum := 3, status := "KEEP", mics := [], note := "" }

/-- Concrete sample draft shared by the counterexample and witness states. -/
def d0 : Draft :=
  { fileNo := "250101_001", sceneNum := 1, sceneSuffix := "", cutNum := 1,
    cutSuffix := "", takeNum := 1, status := "OK",
    mics := ["", "", "", "", "", "", "", ""], note := "" }

/-- Concrete sample row with id i1. -/
def r0 : TakeRow :=
  { id := "i1", createdAt := "t0", updatedAt := "t0", fileNo := "250101_001",
    sceneNo := "1", cutNo := "1", takeNo := "1", status := "OK",
    mics := ["", "", "", "", "", "", "", ""], note := "" }

/-- Concrete state holding the sample row, with empty history stacks. -/
def s0 : AppState := { rows := [r0], draft := d0, past := [], future := [] }

/-- Concrete row whose note contains an embedded newline. -/
def r9 : TakeRow :=
  { id := "i9", createdAt := "t0", updatedAt := "t0", fileNo := "250101_001",
    sceneNo := "1", cutNo := "1", takeNo := "1", status := "OK",
    mics := ["", "", "", "", "", "", "", ""], note := "a\nb" }

/-- Concrete state whose draft has an empty file number, so commit validation fails. -/
def s8 : AppState :=
  { rows := [], draft := { d0 with fileNo := "" }, past := [], future := [] }

/-- Concrete state with one snapshot on the past stack. -/
def t0 : AppState := { rows := [r0], draft := d0, past := [⟨[], d0⟩], future := [] }

/-- Concrete state with an empty past stack and a nonempty future stack. -/
def u0 : AppState := { rows := [], draft := d0, past := [], future := [⟨[], d0⟩] }

/-- Concrete state with an empty future stack and a nonempty past stack. -/
def w0 : AppState := { rows := [], draft := d0, past := [⟨[], d0⟩], future := [] }

/-- Concrete later-dated row used to break the order invariant on import. -/
def rB : TakeRow :=
  { id := "i2", createdAt := "t0", updatedAt := "t0", fileNo := "250101_002",
    sceneNo := "1", cutNo := "1", takeNo := "1", status := "OK",
    mics := ["", "", "", "", "", "", "", ""], note := "" }

/-- Concrete state holding only the later-dated row. -/
def s3 : AppState := { rows := [rB], draft := d0, past := [], future := [] }

/-! Basic lemmas about the digit rendering. -/

theorem natToCharsAux_congr (n : Nat) :
    ∀ f1 f2, n < f1 → n < f2 → natToCharsAux f1 n = natToCharsAux f2 n := by
  induction n using Nat.strong_induction_on with
  | _ n ih =>
    intro f1 f2 h1 h2
    match f1, f2 with
    | g1 + 1, g2 + 1 =>
      simp only [natToCharsAux]
      split
      · rfl
      · next h =>
        have hd : n / 10 < n := Nat.div_lt_self (by omega) (by omega)
        rw [ih (n / 10) hd g1 g2 (by omega) (by omega)]

theorem natToChars_eq (n : Nat) :
    natToChars n =
      if n < 10 then [Nat.digitChar n]
      else natToChars (n / 10) ++ [Nat.digitChar (n % 10)] := by
  unfold natToChars
  conv_lhs => simp only [natToCharsAux]
  split
  · rfl
  · next h =>
    have hb : n / 10 < n := Nat.div_lt_self (by omega) (by omega)
    rw [natToCharsAux_congr (n / 10) n (n / 10 + 1) hb (by omega)]

theorem natToChars_ne_nil (n : Nat) : natToChars n ≠ [] := by
  rw [natToChars_eq]; split <;> simp

theorem isDigit_digitChar : ∀ k, k < 10 → (Nat.digitChar k).isDigit = true := by decide

theorem mem_natToChars_isDigit (n : Nat) : ∀ c ∈ natToChars n, c.isDigit = true := by
  induction n using Nat.strong_induction_on with
  | _ n ih =>
    intro c hc
    rw [natToChars_eq] at hc
    split at hc
    · next h =>
      simp only [List.mem_singleton] at hc
      exact hc ▸ isDigit_digitChar n h
    · next h =>
      rcases List.mem_append.1 hc with h1 | h1
      · exact ih (n / 10) (Nat.div_lt_self (by omega) (by omega)) c h1
      · simp only [List.mem_singleton] at h1
        exact h1 ▸ isDigit_digitChar (n % 10) (Nat.mod_lt _ (by omega))

theorem digitChar_val : ∀ k, k < 10 → (Nat.digitChar k).toNat - 48 = k := by decide

theorem charsVal_natToChars (n : Nat) : charsVal (natToChars n) = n := by
  induction n using Nat.strong_induction_on with
  | _ n ih =>
    rw [natToChars_eq]
    split
    · next h =>
      simp [charsVal, digitChar_val n h]
    · next h =>
      have hd : n / 10 < n := Nat.div_lt_self (by omega) (by omega)
      simp only [charsVal, List.foldl_append, List.foldl_cons, List.foldl_nil]
      rw [show List.foldl (fun a c => a * 10 + (c.toNat - 48)) 0 (natToChars (n / 10))
            = charsVal (natToChars (n / 10)) from rfl, ih (n / 10) hd,
          digitChar_val (n % 10) (Nat.mod_lt _ (by omega))]
      omega

theorem intToChars_ofNat (n : Nat) : intToChars (n : Int) = natToChars n := by
  simp [intToChars]

theorem mk_data (s : String) : String.mk s.data = s := rfl

theorem data_mk (l : List Char) : (String.mk l).data = l := rfl

theorem string_eq_iff_data (s t : String) : s = t ↔ s.data = t.data := by
  constructor
  · intro h; rw [h]
  · intro h
    cases s; cases t
    exact congrArg String.mk h

theorem intToStr_ne_empty (i : Int) : intToStr i ≠ "" := by
  intro h
  have hd : (intToStr i).data = [] := by rw [h]
  unfold intToStr intToChars at hd
  rw [data_mk] at hd
  by_cases hi : i < 0
  · rw [if_pos hi] at hd
    exact List.cons_ne_nil _ _ hd
  · rw [if_neg hi] at hd
    exact natToChars_ne_nil _ hd

theorem combine_ne_empty (num : Int) (sfx : String) : combine num sfx ≠ "" := by
  unfold combine
  split
  · decide
  · intro h
    have hd : (intToStr (max 1 num) ++ sfx).data = [] := by rw [h]
    have : (intToStr (max 1 num)).data ++ sfx.data = [] := hd
    have h2 : (intToStr (max 1 num)).data = [] := by
      rcases List.append_eq_nil.1 this with ⟨h2, _⟩
      exact h2
    exact intToStr_ne_empty _ ((string_eq_iff_data _ _).2 h2)

/-! Lemmas about the fileNo order and sorting. -/

theorem sortRows_sorted (l : List TakeRow) : sortedByFileNo (sortRows l) :=
  List.sorted_insertionSort rowLeP l

theorem mem_sortRows (x : TakeRow) (l : List TakeRow) : x ∈ sortRows l ↔ x ∈ l :=
  (List.perm_insertionSort rowLeP l).mem_iff

/-! Lemmas about the identifier codec round trip. -/

theorem takeWhile_all_append (p : Char → Bool) (l1 l2 : List Char)
    (h : ∀ c ∈ l1, p c = true) :
    (l1 ++ l2).takeWhile p = l1 ++ l2.takeWhile p := by
  induction l1 with
  | nil => simp
  | cons a l ih =>
    have ha : p a = true := h a (List.mem_cons_self a l)
    simp [List.takeWhile_cons, ha, ih (fun c hc => h c (List.mem_cons_of_mem _ hc))]

theorem dropWhile_all_append (p : Char → Bool) (l1 l2 : List Char)
    (h : ∀ c ∈ l1, p c = true) :
    (l1 ++ l2).dropWhile p = l2.dropWhile p := by
  induction l1 with
  | nil => simp
  | cons a l ih =>
    have ha : p a = true := h a (List.mem_cons_self a l)
    simp [List.dropWhile_cons, ha, ih (fun c hc => h c (List.mem_cons_of_mem _ hc))]

theorem matchNumSuf_digits (ds tail : List Char) (h1 : ds ≠ [])
    (h2 : ∀ c ∈ ds, c.isDigit = true)
    (h3 : tail = [] ∨ ∃ c, tail = [c] ∧ isSufLetter c = true)
    (h4 : ∀ c ∈ tail, c.isDigit = false) :
    matchNumSuf (ds ++ tail) = some (ds, tail) := by
  have htw : tail.takeWhile Char.isDigit = [] := by
    rcases h3 with rfl | ⟨c, rfl, hc⟩
    · rfl
    · simp [List.takeWhile_cons, h4 c (List.mem_cons_self c [])]
  have hdw : tail.dropWhile Char.isDigit = tail := by
    rcases h3 with rfl | ⟨c, rfl, hc⟩
    · rfl
    · simp [List.dropWhile_cons, h4 c (List.mem_cons_self c [])]
  simp only [matchNumSuf, takeWhile_all_append _ _ _ h2, dropWhile_all_append _ _ _ h2,
    htw, hdw, List.append_nil]
  cases ds with
  | nil => exact absurd rfl h1
  | cons d ds' =>
    simp only [List.isEmpty_cons, Bool.false_eq_true, if_false]
    rcases h3 with rfl | ⟨c, rfl, hc⟩
    · rfl
    · simp [hc]

theorem natToChars_ne_sentinel (n : Nat) (tail : List Char) :
    String.mk (natToChars n ++ tail) ≠ sentinelToken := by
  intro h
  have hd : natToChars n ++ tail = sentinelToken.data := congrArg String.data h
  rcases hn : natToChars n with _ | ⟨c, cs⟩
  · exact natToChars_ne_nil n hn
  · have hc : c.isDigit = true :=
      mem_natToChars_isDigit n c (by rw [hn]; exact List.mem_cons_self c cs)
    rw [hn] at hd
    have hh : some c = sentinelToken.data.head? := by
      have h2 := congrArg List.head? hd
      simpa using h2
    have hsen : sentinelToken.data.head? = some 'オ' := rfl
    rw [hsen] at hh
    rw [Option.some.inj hh] at hc
    exact absurd hc (by decide)

theorem splitNumAndSuffix_canonical (n : Nat) (sfx : String) (hs : sfx ∈ SUFFIXES) :
    splitNumAndSuffix (String.mk (natToChars n) ++ sfx) = ⟨(n : Int), sfx⟩ := by
  have hdata : (String.mk (natToChars n) ++ sfx).data = natToChars n ++ sfx.data := rfl
  have h3 : sfx.data = [] ∨ ∃ c, sfx.data = [c] ∧ isSufLetter c = true := by
    simp only [SUFFIXES, List.mem_cons, List.not_mem_nil, or_false] at hs
    rcases hs with rfl | rfl | rfl | rfl | rfl | rfl | rfl | rfl
    · exact Or.inl rfl
    all_goals exact Or.inr ⟨_, rfl, by decide⟩
  have h4 : ∀ c ∈ sfx.data, c.isDigit = false := by
    simp only [SUFFIXES, List.mem_cons, List.not_mem_nil, or_false] at hs
    rcases hs with rfl | rfl | rfl | rfl | rfl | rfl | rfl | rfl <;> decide
  have hne : String.mk (natToChars n) ++ sfx ≠ sentinelToken := by
    have hmk : String.mk (natToChars n) ++ sfx = String.mk (natToChars n ++ sfx.data) := rfl
    rw [hmk]
    exact natToChars_ne_sentinel n sfx.data
  unfold splitNumAndSuffix
  rw [if_neg hne, hdata,
    matchNumSuf_digits (natToChars n) sfx.data (natToChars_ne_nil n)
      (mem_natToChars_isDigit n) h3 h4]
  dsimp only
  rw [charsVal_natToChars, mk_data]

theorem combine_canonical (n : Nat) (h : 1 ≤ n) (sfx : String) :
    combine (n : Int) sfx = String.mk (natToChars n) ++ sfx := by
  unfold combine
  rw [if_neg (by omega)]
  have hmax : max 1 (n : Int) = (n : Int) := max_eq_right (by omega)
  rw [hmax]
  have : intToStr (n : Int) = String.mk (natToChars n) := by
    unfold intToStr
    rw [intToChars_ofNat]
  rw [this]

/-! Lemmas about the history bookkeeping of each operation. -/

theorem addRow_hist (p i n : String) (s : AppState) :
    (addRow p i n s).past = s.past ++ [snapOf s] ∧ (addRow p i n s).future = [] := by
  simp only [addRow, pushHistorySt]
  split <;> exact ⟨rfl, rfl⟩

theorem delRow_hist (c : Bool) (rid : String) (s : AppState) :
    (delRow c rid s).past = s.past ++ [snapOf s] ∧ (delRow c rid s).future = [] := by
  simp only [delRow, pushHistorySt]
  split <;> exact ⟨rfl, rfl⟩

theorem resetCounters_hist (s : AppState) :
    (resetCounters s).past = s.past ++ [snapOf s] ∧ (resetCounters s).future = [] :=
  ⟨rfl, rfl⟩

theorem editRow_hist (rid : String) (s : AppState) :
    (editRow rid s).past = s.past ∧ (editRow rid s).future = s.future := by
  unfold editRow
  cases s.rows.find? (fun r => r.id == rid) <;> exact ⟨rfl, rfl⟩

theorem autoFill_hist (p : String) (s : AppState) :
    (autoFillFileNo p s).past = s.past ∧ (autoFillFileNo p s).future = s.future := by
  simp only [autoFillFileNo]
  split <;> exact ⟨rfl, rfl⟩

theorem undo_concat (rows : List TakeRow) (draft : Draft) (past fut : List Snapshot)
    (prev : Snapshot) :
    undoSt ⟨rows, draft, past ++ [prev], fut⟩ =
      ⟨prev.rows, prev.draft, past, fut ++ [⟨rows, draft⟩]⟩ := by
  simp [undoSt, List.getLast?_concat, List.dropLast_concat, snapOf]

theorem redo_concat (rows : List TakeRow) (draft : Draft) (past fut : List Snapshot)
    (nxt : Snapshot) :
    redoSt ⟨rows, draft, past, fut ++ [nxt]⟩ =
      ⟨nxt.rows, nxt.draft, past ++ [⟨rows, draft⟩], fut⟩ := by
  simp [redoSt, List.getLast?_concat, List.dropLast_concat, snapOf]

theorem undo_applyMuts (fs : List (List TakeRow → Draft → List TakeRow × Draft)) :
    ∀ s, ∃ fut, undoSt^[fs.length] (applyMuts fs s) = ⟨s.rows, s.draft, s.past, fut⟩ := by
  induction fs with
  | nil => intro s; exact ⟨s.future, rfl⟩
  | cons f fs ih =>
    intro s
    obtain ⟨fut, hf⟩ := ih (recordedMutation f s)
    refine ⟨fut ++ [⟨(recordedMutation f s).rows, (recordedMutation f s).draft⟩], ?_⟩
    have h1 : applyMuts (f :: fs) s = applyMuts fs (recordedMutation f s) := rfl
    have h2 : (f :: fs).length = fs.length + 1 := rfl
    rw [h1, h2, Function.iterate_succ_apply', hf]
    have h3 : (recordedMutation f s).past = s.past ++ [snapOf s] := rfl
    rw [h3, undo_concat]
    rfl

/-! Lemmas for the CSV round trip: characters of the encoded lines. -/

theorem escField_no_nl (f : List Char) : '\n' ∉ escField f := by
  induction f with
  | nil => simp [escField]
  | cons c cs ih =>
    by_cases h1 : c = '"'
    · simp only [escField, h1, if_pos]
      intro h
      rcases List.mem_cons.1 h with h | h
      · exact absurd h (by decide)
      rcases List.mem_cons.1 h with h | h
      · exact absurd h (by decide)
      · exact ih h
    · by_cases h2 : c = '\n'
      · simp only [escField, h1, if_neg, h2, if_pos]
        intro h
        rcases List.mem_cons.1 h with h | h
        · exact absurd h (by decide)
        · exact ih h
      · simp only [escField, h1, h2, if_neg]
        intro h
        rcases List.mem_cons.1 h with h | h
        · exact h2 h.symm
        · exact ih h

theorem mem_escField (f : List Char) (c : Char) (h : c ∈ escField f) :
    c ∈ f ∨ c = ' ' := by
  induction f with
  | nil => simp [escField] at h
  | cons d ds ih =>
    by_cases h1 : d = '"'
    · simp only [escField, h1, if_pos] at h
      rcases List.mem_cons.1 h with h | h
      · exact Or.inl (by rw [h, h1]; exact List.mem_cons_self _ _)
      rcases List.mem_cons.1 h with h | h
      · exact Or.inl (by rw [h, h1]; exact List.mem_cons_self _ _)
      · rcases ih h with h | h
        · exact Or.inl (List.mem_cons_of_mem _ h)
        · exact Or.inr h
    · by_cases h2 : d = '\n'
      · simp only [escField, h1, if_neg, h2, if_pos] at h
        rcases List.mem_cons.1 h with h | h
        · exact Or.inr h
        · rcases ih h with h | h
          · exact Or.inl (List.mem_cons_of_mem _ h)
          · exact Or.inr h
      · simp only [escField, h1, h2, if_neg] at h
        rcases List.mem_cons.1 h with h | h
        · exact Or.inl (h ▸ List.mem_cons_self _ _)
        · rcases ih h with h | h
          · exact Or.inl (List.mem_cons_of_mem _ h)
          · exact Or.inr h

theorem mem_quoteF (f : List Char) (c : Char) (h : c ∈ quoteF f) :
    c = '"' ∨ c ∈ escField f := by
  unfold quoteF at h
  rcases List.mem_cons.1 h with h | h
  · exact Or.inl h
  · rcases List.mem_append.1 h with h | h
    · exact Or.inr h
    · simp only [List.mem_singleton] at h
      exact Or.inl h

theorem mem_joinCh (sep : Char) (ps : List (List Char)) (c : Char)
    (h : c ∈ joinCh sep ps) : c = sep ∨ ∃ p ∈ ps, c ∈ p := by
  induction ps with
  | nil => simp [joinCh] at h
  | cons x xs ih =>
    cases xs with
    | nil => exact Or.inr ⟨x, List.mem_cons_self _ _, h⟩
    | cons y ys =>
      rw [show joinCh sep (x :: y :: ys) = x ++ sep :: joinCh sep (y :: ys) from rfl] at h
      rcases List.mem_append.1 h with h | h
      · exact Or.inr ⟨x, List.mem_cons_self _ _, h⟩
      · rcases List.mem_cons.1 h with h | h
        · exact Or.inl h
        · rcases ih h with h | ⟨p, hp, hc⟩
          · exact Or.inl h
          · exact Or.inr ⟨p, List.mem_cons_of_mem _ hp, hc⟩

theorem splitCh_no_sep (sep : Char) (l : List Char) (h : sep ∉ l) :
    splitCh sep l = [l] := by
  induction l with
  | nil => rfl
  | cons c cs ih =>
    have hc : ¬ c = sep := fun e => h (e ▸ List.mem_cons_self c cs)
    have ht : sep ∉ cs := fun e => h (List.mem_cons_of_mem _ e)
    simp [splitCh, hc, ih ht]

theorem splitCh_cons_sep (sep : Char) (piece rest : List Char) (h : sep ∉ piece) :
    splitCh sep (piece ++ sep :: rest) = piece :: splitCh sep rest := by
  induction piece with
  | nil => simp [splitCh]
  | cons c cs ih =>
    have hc : ¬ c = sep := fun e => h (e ▸ List.mem_cons_self c cs)
    have ht : sep ∉ cs := fun e => h (List.mem_cons_of_mem _ e)
    rw [List.cons_append]
    simp [splitCh, hc, ih ht]

theorem splitCh_joinCh (sep : Char) (ps : List (List Char)) (h0 : ps ≠ [])
    (h : ∀ p ∈ ps, sep ∉ p) : splitCh sep (joinCh sep ps) = ps := by
  induction ps with
  | nil => exact absurd rfl h0
  | cons x xs ih =>
    cases xs with
    | nil => exact splitCh_no_sep sep x (h x (List.mem_cons_self _ _))
    | cons y ys =>
      rw [show joinCh sep (x :: y :: ys) = x ++ sep :: joinCh sep (y :: ys) from rfl,
        splitCh_cons_sep sep x _ (h x (List.mem_cons_self _ _)),
        ih (by simp) (fun p hp => h p (List.mem_cons_of_mem _ hp))]

theorem dropTailCR_id (p : List Char) (h : '\r' ∉ p) : dropTailCR p = p := by
  unfold dropTailCR
  split
  · next heq => exact absurd (List.mem_of_getLast?_eq_some heq) h
  · rfl

theorem stripCRs_id (ps : List (List Char)) (h : ∀ p ∈ ps, '\r' ∉ p) :
    stripCRs ps = ps := by
  induction ps with
  | nil => rfl
  | cons x xs ih =>
    cases xs with
    | nil => rfl
    | cons y ys =>
      rw [show stripCRs (x :: y :: ys) = dropTailCR x :: stripCRs (y :: ys) from rfl,
        dropTailCR_id x (h x (List.mem_cons_self _ _)),
        ih (fun p hp => h p (List.mem_cons_of_mem _ hp))]

theorem splitLines_joinCh (ps : List (List Char)) (h0 : ps ≠ [])
    (h : ∀ p ∈ ps, '\n' ∉ p ∧ '\r' ∉ p) : splitLinesJS (joinCh '\n' ps) = ps := by
  unfold splitLinesJS
  rw [splitCh_joinCh '\n' ps h0 (fun p hp => (h p hp).1),
    stripCRs_id ps (fun p hp => (h p hp).2)]

theorem keepLine_quote (l : List Char) : keepLine ('"' :: l) = true := by
  unfold keepLine
  rw [List.any_cons]
  have hq : (!isJsWS '"') = true := by decide
  rw [hq, Bool.true_or]

theorem pad8_eq : ∀ (l : List String),
    pad8 l = [l.getD 0 "", l.getD 1 "", l.getD 2 "", l.getD 3 "",
      l.getD 4 "", l.getD 5 "", l.getD 6 "", l.getD 7 ""]
  | [] => rfl
  | [_] => rfl
  | [_, _] => rfl
  | [_, _, _] => rfl
  | [_, _, _, _] => rfl
  | [_, _, _, _, _] => rfl
  | [_, _, _, _, _, _] => rfl
  | [_, _, _, _, _, _, _] => rfl
  | _ :: _ :: _ :: _ :: _ :: _ :: _ :: _ :: _ => rfl

theorem mem_pad8 (x : String) (l : List String) (h : x ∈ pad8 l) :
    x ∈ l ∨ x = "" := by
  unfold pad8 at h
  rcases List.mem_append.1 (List.mem_of_mem_take h) with h | h
  · exact Or.inl h
  · exact Or.inr (List.eq_of_mem_replicate h)

/-! Lemmas for the CSV round trip: the tokenizer undoes the field encoding. -/

theorem parseQ_escField (f : List Char) : ∀ (cur tail : List Char), '\n' ∉ f →
    (tail = [] ∨ ∃ t', tail = ',' :: t') →
    parseQ (escField f ++ '"' :: tail) cur = parseU tail (cur ++ f) := by
  induction f with
  | nil =>
    intro cur tail _ htail
    rcases htail with rfl | ⟨t', rfl⟩
    · show parseQ (escField [] ++ '"' :: []) cur = parseU [] (cur ++ [])
      rw [show escField [] = [] from rfl, List.nil_append, List.append_nil]
      rfl
    · show parseQ (escField [] ++ '"' :: ',' :: t') cur = parseU (',' :: t') (cur ++ [])
      rw [show escField [] = [] from rfl, List.nil_append, List.append_nil]
      rfl
  | cons c cs ih =>
    intro cur tail hnl htail
    have hnl' : '\n' ∉ cs := fun h => hnl (List.mem_cons_of_mem _ h)
    have hcnl : ¬ c = '\n' := fun e => hnl (e ▸ List.mem_cons_self c cs)
    by_cases hq : c = '"'
    · subst hq
      rw [show escField ('"' :: cs) = '"' :: '"' :: escField cs from by
        simp [escField]]
      rw [show ('"' :: '"' :: escField cs) ++ '"' :: tail
          = '"' :: '"' :: (escField cs ++ '"' :: tail) from rfl]
      rw [show parseQ ('"' :: '"' :: (escField cs ++ '"' :: tail)) cur
          = parseQ (escField cs ++ '"' :: tail) (cur ++ ['"']) from rfl]
      rw [ih (cur ++ ['"']) tail hnl' htail]
      rw [List.append_assoc]
      rfl
    · rw [show escField (c :: cs) = c :: escField cs from by
        simp [escField, hq, hcnl]]
      rw [show (c :: escField cs) ++ '"' :: tail
          = c :: (escField cs ++ '"' :: tail) from rfl]
      have hstep : parseQ (c :: (escField cs ++ '"' :: tail)) cur
          = parseQ (escField cs ++ '"' :: tail) (cur ++ [c]) := by
        simp [parseQ, hq]
      rw [hstep, ih (cur ++ [c]) tail hnl' htail]
      rw [List.append_assoc]
      rfl

theorem parseU_encode (fs : List (List Char)) : ∀ (f cur : List Char), '\n' ∉ f →
    (∀ g ∈ fs, '\n' ∉ g) →
    parseU (joinCh ',' ((f :: fs).map quoteF)) cur = (cur ++ f) :: fs := by
  induction fs with
  | nil =>
    intro f cur hf _
    rw [show joinCh ',' ([f].map quoteF) = quoteF f from rfl,
      show quoteF f = '"' :: (escField f ++ ['"']) from rfl,
      show parseU ('"' :: (escField f ++ ['"'])) cur
        = parseQ (escField f ++ ['"']) cur from rfl,
      show (['"'] : List Char) = '"' :: [] from rfl,
      parseQ_escField f cur [] hf (Or.inl rfl)]
    rfl
  | cons g gs ih =>
    intro f cur hf hgs
    have hsh : joinCh ',' ((f :: g :: gs).map quoteF)
        = '"' :: (escField f ++ '"' :: ',' :: joinCh ',' ((g :: gs).map quoteF)) := by
      rw [show (f :: g :: gs).map quoteF
          = quoteF f :: (g :: gs).map quoteF from rfl]
      rw [show joinCh ',' (quoteF f :: (g :: gs).map quoteF)
          = quoteF f ++ ',' :: joinCh ',' ((g :: gs).map quoteF) from by
        rw [show (g :: gs).map quoteF = quoteF g :: gs.map quoteF from rfl]
        rfl]
      simp [quoteF]
    rw [hsh,
      show parseU ('"' :: (escField f ++ '"' :: ',' :: joinCh ',' ((g :: gs).map quoteF))) cur
        = parseQ (escField f ++ '"' :: ',' :: joinCh ',' ((g :: gs).map quoteF)) cur from rfl,
      parseQ_escField f cur (',' :: joinCh ',' ((g :: gs).map quoteF)) hf (Or.inr ⟨_, rfl⟩),
      show parseU (',' :: joinCh ',' ((g :: gs).map quoteF)) (cur ++ f)
        = (cur ++ f) :: parseU (joinCh ',' ((g :: gs).map quoteF)) [] from rfl,
      ih g [] (hgs g (List.mem_cons_self _ _))
        (fun x hx => hgs x (List.mem_cons_of_mem _ hx)),
      List.nil_append]

/-! Lemmas for the CSV round trip: header binding and per-line decoding. -/

theorem headersParsed :
    (splitCh ',' (joinCh ',' (csvHeaders.map String.data))).map stripOuterQ
      = csvHeaders.map String.data := by decide

theorem recGet_createdAt (cols : List (List Char)) :
    recGet (csvHeaders.map String.data) cols ['c', 'r', 'e', 'a', 't', 'e', 'd', 'A', 't']
      = cols.getD 0 [] := rfl

theorem recGet_fileNo (cols : List (List Char)) :
    recGet (csvHeaders.map String.data) cols ['f', 'i', 'l', 'e', 'N', 'o']
      = cols.getD 1 [] := rfl

theorem recGet_sceneNo (cols : List (List Char)) :
    recGet (csvHeaders.map String.data) cols ['s', 'c', 'e', 'n', 'e', 'N', 'o']
      = cols.getD 2 [] := rfl

theorem recGet_cutNo (cols : List (List Char)) :
    recGet (csvHeaders.map String.data) cols ['c', 'u', 't', 'N', 'o']
      = cols.getD 3 [] := rfl

theorem recGet_takeNo (cols : List (List Char)) :
    recGet (csvHeaders.map String.data) cols ['t', 'a', 'k', 'e', 'N', 'o']
      = cols.getD 4 [] := rfl

theorem recGet_status (cols : List (List Char)) :
    recGet (csvHeaders.map String.data) cols ['s', 't', 'a', 't', 'u', 's']
      = cols.getD 5 [] := rfl

theorem recGet_note (cols : List (List Char)) :
    recGet (csvHeaders.map String.data) cols ['n', 'o', 't', 'e'] = cols.getD 14 [] := rfl

theorem recGet_mic1 (cols : List (List Char)) :
    recGet (csvHeaders.map String.data) cols (['m', 'i', 'c'] ++ natToChars (0 + 1))
      = cols.getD 6 [] := rfl

theorem recGet_mic2 (cols : List (List Char)) :
    recGet (csvHeaders.map String.data) cols (['m', 'i', 'c'] ++ natToChars (1 + 1))
      = cols.getD 7 [] := rfl

theorem recGet_mic3 (cols : List (List Char)) :
    recGet (csvHeaders.map String.data) cols (['m', 'i', 'c'] ++ natToChars (2 + 1))
      = cols.getD 8 [] := rfl

theorem recGet_mic4 (cols : List (List Char)) :
    recGet (csvHeaders.map String.data) cols (['m', 'i', 'c'] ++ natToChars (3 + 1))
      = cols.getD 9 [] := rfl

theorem recGet_mic5 (cols : List (List Char)) :
    recGet (csvHeaders.map String.data) cols (['m', 'i', 'c'] ++ natToChars (4 + 1))
      = cols.getD 10 [] := rfl

theorem recGet_mic6 (cols : List (List Char)) :
    recGet (csvHeaders.map String.data) cols (['m', 'i', 'c'] ++ natToChars (5 + 1))
      = cols.getD 11 [] := rfl

theorem recGet_mic7 (cols : List (List Char)) :
    recGet (csvHeaders.map String.data) cols (['m', 'i', 'c'] ++ natToChars (6 + 1))
      = cols.getD 12 [] := rfl

theorem recGet_mic8 (cols : List (List Char)) :
    recGet (csvHeaders.map String.data) cols (['m', 'i', 'c'] ++ natToChars (7 + 1))
      = cols.getD 13 [] := rfl

theorem jsOr_empty (a : String) : jsOr a "" = a := by
  unfold jsOr
  split
  · next h => exact h.symm
  · rfl

theorem jsOr_ne (a b : String) (h : a ≠ "") : jsOr a b = a := by
  unfold jsOr
  rw [if_neg h]

theorem cleanStr_getD (l : List String) (h : ∀ m ∈ l, cleanStr m) :
    ∀ k, cleanStr (l.getD k "") := by
  induction l with
  | nil => intro k; constructor <;> simp
  | cons a as ih =>
    intro k
    cases k with
    | zero => exact h a (List.mem_cons_self _ _)
    | succ k =>
      rw [List.getD_cons_succ]
      exact ih (fun m hm => h m (List.mem_cons_of_mem _ hm)) k

theorem rowFields_explicit (r : TakeRow) :
    rowFields r = [r.createdAt, r.fileNo, r.sceneNo, r.cutNo, r.takeNo, r.status,
      r.mics.getD 0 "", r.mics.getD 1 "", r.mics.getD 2 "", r.mics.getD 3 "",
      r.mics.getD 4 "", r.mics.getD 5 "", r.mics.getD 6 "", r.mics.getD 7 "",
      r.note] := by
  unfold rowFields
  rw [pad8_eq]
  rfl

theorem decodeLine_encode (now : String) (r : TakeRow) (hc : cleanRow r) :
    decodeLine now (csvHeaders.map String.data) (encodeRowLine r) = reMint now r := by
  obtain ⟨h1, h2, h3, h4, h5, h6, h7, h8, h9, h10⟩ := hc
  have hm0 := cleanStr_getD r.mics h7 0
  have hm1 := cleanStr_getD r.mics h7 1
  have hm2 := cleanStr_getD r.mics h7 2
  have hm3 := cleanStr_getD r.mics h7 3
  have hm4 := cleanStr_getD r.mics h7 4
  have hm5 := cleanStr_getD r.mics h7 5
  have hm6 := cleanStr_getD r.mics h7 6
  have hm7 := cleanStr_getD r.mics h7 7
  have hcols : parseU (encodeRowLine r) [] =
      [r.createdAt.data, r.fileNo.data, r.sceneNo.data, r.cutNo.data, r.takeNo.data,
       r.status.data, (r.mics.getD 0 "").data, (r.mics.getD 1 "").data,
       (r.mics.getD 2 "").data, (r.mics.getD 3 "").data, (r.mics.getD 4 "").data,
       (r.mics.getD 5 "").data, (r.mics.getD 6 "").data, (r.mics.getD 7 "").data,
       r.note.data] := by
    have henc : encodeRowLine r = joinCh ','
        (([r.createdAt.data, r.fileNo.data, r.sceneNo.data, r.cutNo.data,
           r.takeNo.data, r.status.data, (r.mics.getD 0 "").data,
           (r.mics.getD 1 "").data, (r.mics.getD 2 "").data, (r.mics.getD 3 "").data,
           (r.mics.getD 4 "").data, (r.mics.getD 5 "").data, (r.mics.getD 6 "").data,
           (r.mics.getD 7 "").data, r.note.data]).map quoteF) := by
      unfold encodeRowLine
      rw [rowFields_explicit]
      rfl
    have htail : ∀ g ∈ [r.fileNo.data, r.sceneNo.data, r.cutNo.data, r.takeNo.data,
        r.status.data, (r.mics.getD 0 "").data, (r.mics.getD 1 "").data,
        (r.mics.getD 2 "").data, (r.mics.getD 3 "").data, (r.mics.getD 4 "").data,
        (r.mics.getD 5 "").data, (r.mics.getD 6 "").data, (r.mics.getD 7 "").data,
        r.note.data], '\n' ∉ g := by
      intro g hg
      simp only [List.mem_cons, List.not_mem_nil, or_false] at hg
      rcases hg with rfl | rfl | rfl | rfl | rfl | rfl | rfl | rfl | rfl | rfl | rfl
        | rfl | rfl | rfl
      exacts [h2.1, h3.1, h4.1, h5.1, h6.1, hm0.1, hm1.1, hm2.1, hm3.1, hm4.1,
        hm5.1, hm6.1, hm7.1, h8.1]
    rw [henc, parseU_encode _ _ _ h1.1 htail, List.nil_append]
  simp only [decodeLine]
  rw [hcols]
  rw [show List.range 8 = [0, 1, 2, 3, 4, 5, 6, 7] from rfl]
  simp only [List.map_cons, List.map_nil]
  simp only [recGet_createdAt, recGet_fileNo, recGet_sceneNo, recGet_cutNo,
    recGet_takeNo, recGet_status, recGet_note, recGet_mic1, recGet_mic2, recGet_mic3,
    recGet_mic4, recGet_mic5, recGet_mic6, recGet_mic7, recGet_mic8]
  simp only [List.getD_cons_zero, List.getD_cons_succ]
  simp only [mk_data]
  rw [jsOr_ne r.createdAt now h9, jsOr_ne r.status "KEEP" h10]
  simp only [jsOr_empty]
  unfold reMint
  rw [pad8_eq]

theorem no_nl_encodeRowLine (r : TakeRow) : '\n' ∉ encodeRowLine r := by
  intro hmem
  unfold encodeRowLine at hmem
  rcases mem_joinCh _ _ _ hmem with h | ⟨p, hp, hcp⟩
  · exact absurd h (by decide)
  · simp only [List.mem_map] at hp
    obtain ⟨x, hx, rfl⟩ := hp
    rcases mem_quoteF _ _ hcp with h | h
    · exact absurd h (by decide)
    · exact escField_no_nl _ h

theorem no_cr_encodeRowLine (r : TakeRow) (hc : cleanRow r) :
    '\r' ∉ encodeRowLine r := by
  obtain ⟨h1, h2, h3, h4, h5, h6, h7, h8, _, _⟩ := hc
  intro hmem
  unfold encodeRowLine at hmem
  rcases mem_joinCh _ _ _ hmem with h | ⟨p, hp, hcp⟩
  · exact absurd h (by decide)
  · simp only [List.mem_map] at hp
    obtain ⟨x, hx, rfl⟩ := hp
    rcases mem_quoteF _ _ hcp with h | h
    · exact absurd h (by decide)
    · rcases mem_escField _ _ h with h | h
      · rw [rowFields_explicit] at hx
        simp only [List.mem_cons, List.not_mem_nil, or_false] at hx
        rcases hx with rfl | rfl | rfl | rfl | rfl | rfl | rfl | rfl | rfl | rfl
          | rfl | rfl | rfl | rfl | rfl
        exacts [h1.2 h, h2.2 h, h3.2 h, h4.2 h, h5.2 h, h6.2 h,
          (cleanStr_getD r.mics h7 0).2 h, (cleanStr_getD r.mics h7 1).2 h,
          (cleanStr_getD r.mics h7 2).2 h, (cleanStr_getD r.mics h7 3).2 h,
          (cleanStr_getD r.mics h7 4).2 h, (cleanStr_getD r.mics h7 5).2 h,
          (cleanStr_getD r.mics h7 6).2 h, (cleanStr_getD r.mics h7 7).2 h,
          h8.2 h]
      · exact absurd h (by decide)

theorem keepLine_encodeRowLine (r : TakeRow) : keepLine (encodeRowLine r) = true := by
  have hsh : ∃ t, encodeRowLine r = '"' :: t := by
    unfold encodeRowLine
    rw [rowFields_explicit]
    exact ⟨_, rfl⟩
  obtain ⟨t, ht⟩ := hsh
  rw [ht]
  exact keepLine_quote t

/-! Claim theorems. -/

/-- C10: setSceneNum also resets the cut number to 1, clears the cut suffix and resets
the take number to 1 (besides clamping the scene number to at least 1), and setCutNum
also resets the take number to 1 — the cascade fires on every call, independent of any
commit (page.tsx lines 553-558). -/
theorem C10_setter_cascade (n : Int) (d : Draft) :
    (setSceneNum n d).sceneNum = max 1 n ∧ (setSceneNum n d).cutNum = 1 ∧
    (setSceneNum n d).cutSuffix = "" ∧ (setSceneNum n d).takeNum = 1 ∧
    (setCutNum n d).cutNum = max 1 n ∧ (setCutNum n d).takeNum = 1 :=
  ⟨rfl, rfl, rfl, rfl, rfl, rfl⟩

/-- C1: the Stepper itself computes decrement of 1 as the sentinel -1 and increment of
the sentinel as 1, but routing the decrement result through the draft setter setCutNum
clamps it with the maximum against 1, so the committed draft cut number is 1, not the
sentinel — the dedicated 1-to-sentinel transition is destroyed on commit. -/
theorem C1_cut_boundary_bug :
    stepperCutDec 1 = -1 ∧ stepperCutInc (-1) = 1 ∧
    (cutStepperCommit
      (stepperCutDec (splitNumAndSuffix (combine dC1.cutNum dC1.cutSuffix)).num)
      dC1).cutNum = 1 ∧
    (cutStepperCommit
      (stepperCutDec (splitNumAndSuffix (combine dC1.cutNum dC1.cutSuffix)).num)
      dC1).cutNum ≠ -1 := by decide

/-- C7 counterexample: the input made of the digits one-two then the letter x is
neither the sentinel nor a match of the recognized shape, yet the parser returns
magnitude 12 (the parseInt fallback parses the leading digits), not 0. -/
theorem C7_counterexample :
    "12x" ≠ sentinelToken ∧ matchNumSuf "12x".data = none ∧
    splitNumAndSuffix "12x" = ⟨12, ""⟩ ∧ splitNumAndSuffix "12x" ≠ ⟨0, ""⟩ := by decide

/-- C7 amended: on inputs that are neither the sentinel nor shape matches the parser
never fails and always returns an empty suffix; the magnitude is not a constant 0 but
the parseInt of the whole string whenever one parses (12 for the counterexample, 0 for
an input whose leading integer is 0) and 0 when none does, so it is 0 exactly when
parseInt yields nothing or the integer 0. -/
theorem C7_fallback (v : String) (h1 : v ≠ sentinelToken)
    (h2 : matchNumSuf v.data = none) :
    (splitNumAndSuffix v).suffix = "" ∧
    (∀ i, parseIntJS v.data = some i → (splitNumAndSuffix v).num = i) ∧
    ((splitNumAndSuffix v).num = 0 ↔
      (parseIntJS v.data = none ∨ parseIntJS v.data = some 0)) := by
  have key : splitNumAndSuffix v =
      (match parseIntJS (if v = "" then "0" else v).data with
        | some i => ⟨i, ""⟩
        | none => ⟨0, ""⟩) := by
    unfold splitNumAndSuffix
    rw [if_neg h1, h2]
  by_cases hv : v = ""
  · subst hv
    refine ⟨by decide, ?_, ?_⟩
    · intro i hi
      have hn : parseIntJS "".data = none := by decide
      rw [hn] at hi
      exact Option.noConfusion hi
    · exact ⟨fun _ => Or.inl (by decide), fun _ => by decide⟩
  · rw [key, if_neg hv]
    rcases hp : parseIntJS v.data with _ | i
    · refine ⟨rfl, ?_, ?_⟩
      · intro j hj
        exact Option.noConfusion hj
      · exact ⟨fun _ => Or.inl rfl, fun _ => rfl⟩
    · refine ⟨rfl, ?_, ?_⟩
      · intro j hj
        exact Option.some.inj hj
      · constructor
        · intro h0
          exact Or.inr (congrArg some h0)
        · intro h0
          rcases h0 with h0 | h0
          · exact Option.noConfusion h0
          · exact Option.some.inj h0

/-- Witness for C7_fallback at a concrete unparsable input. -/
theorem C7_fallback_witness :
    ("abc" ≠ sentinelToken ∧ matchNumSuf "abc".data = none) ∧
      ((splitNumAndSuffix "abc").suffix = "" ∧
       (∀ i, parseIntJS "abc".data = some i → (splitNumAndSuffix "abc").num = i) ∧
       ((splitNumAndSuffix "abc").num = 0 ↔
         (parseIntJS "abc".data = none ∨ parseIntJS "abc".data = some 0))) :=
  ⟨by decide, C7_fallback "abc" (by decide) (by decide)⟩

/-- C4 counterexample: editRow on the concrete state removes the row (a user-visible
mutation of the row collection) yet pushes no history snapshot — the past stack stays
empty, so the claim that every user-visible mutating operation records history first
fails on edit-extraction. -/
theorem C4_counterexample :
    (editRow "i1" s0).rows ≠ s0.rows ∧ (editRow "i1" s0).rows = [] ∧
    (editRow "i1" s0).past = [] ∧ s0.past = [] := by decide

/-- C4 amended: addRow, delRow and resetCounters push exactly one deep-copy snapshot
of the pre-mutation state onto the past stack (clearing the redo branch) before any
change, and the reactive file-number auto-fill never records history — but editRow
records no history either. -/
theorem C4_history_discipline (p i n q : String) (c : Bool) (rid rid2 : String)
    (s : AppState) :
    (addRow p i n s).past = s.past ++ [snapOf s] ∧ (addRow p i n s).future = [] ∧
    (delRow c rid s).past = s.past ++ [snapOf s] ∧ (delRow c rid s).future = [] ∧
    (resetCounters s).past = s.past ++ [snapOf s] ∧ (resetCounters s).future = [] ∧
    (editRow rid2 s).past = s.past ∧ (editRow rid2 s).future = s.future ∧
    (autoFillFileNo q s).past = s.past ∧ (autoFillFileNo q s).future = s.future :=
  ⟨(addRow_hist p i n s).1, (addRow_hist p i n s).2,
   (delRow_hist c rid s).1, (delRow_hist c rid s).2,
   (resetCounters_hist s).1, (resetCounters_hist s).2,
   (editRow_hist rid2 s).1, (editRow_hist rid2 s).2,
   (autoFill_hist q s).1, (autoFill_hist q s).2⟩

/-- C8 counterexample: on a failed validation the row list and draft are indeed
untouched, but the history stacks are not: addRow has already pushed a snapshot before
validating, so the past stack differs from its pre-commit value. -/
theorem C8_counterexample :
    (addRow "250101" "x" "t1" s8).rows = s8.rows ∧
    (addRow "250101" "x" "t1" s8).draft = s8.draft ∧
    (addRow "250101" "x" "t1" s8).past ≠ s8.past := by decide

/-- C8 amended: when validation fails (the file number is empty — the only failable
disjunct, since the combined scene and cut tokens and the take string are never empty)
addRow leaves rows and draft unchanged, but the past stack has already received a
snapshot of the unchanged state and the future stack has been cleared. -/
theorem C8_validation_reject (p i n : String) (s : AppState)
    (h : s.draft.fileNo = "") :
    (addRow p i n s).rows = s.rows ∧ (addRow p i n s).draft = s.draft ∧
    (addRow p i n s).past = s.past ++ [snapOf s] ∧ (addRow p i n s).future = [] ∧
    combine s.draft.sceneNum s.draft.sceneSuffix ≠ "" ∧
    combine s.draft.cutNum s.draft.cutSuffix ≠ "" ∧
    intToStr s.draft.takeNum ≠ "" := by
  refine ⟨?_, ?_, ?_, ?_, combine_ne_empty _ _, combine_ne_empty _ _,
    intToStr_ne_empty _⟩ <;>
  · simp only [addRow, pushHistorySt]
    split
    · rfl
    · next hc => exact absurd (Or.inl h) hc

/-- Witness for C8_validation_reject at the concrete invalid state. -/
theorem C8_validation_reject_witness :
    s8.draft.fileNo = "" ∧
    ((addRow "250101" "x" "t1" s8).rows = s8.rows ∧
     (addRow "250101" "x" "t1" s8).draft = s8.draft ∧
     (addRow "250101" "x" "t1" s8).past = s8.past ++ [snapOf s8] ∧
     (addRow "250101" "x" "t1" s8).future = [] ∧
     combine s8.draft.sceneNum s8.draft.sceneSuffix ≠ "" ∧
     combine s8.draft.cutNum s8.draft.cutSuffix ≠ "" ∧
     intToStr s8.draft.takeNum ≠ "") :=
  ⟨rfl, C8_validation_reject "250101" "x" "t1" s8 rfl⟩

/-- C5: for any sequence of history-recorded mutations, undoing once per mutation
restores exactly the pre-sequence rows and draft; redo immediately after an undo (on a
nonempty past) restores the undone state; any new recorded mutation empties the future
stack so a subsequent redo is a no-op; undo on an empty past and redo on an empty
future change nothing. -/
theorem C5_undo_redo (fs : List (List TakeRow → Draft → List TakeRow × Draft))
    (s t u w x : AppState) (g : List TakeRow → Draft → List TakeRow × Draft)
    (ht : t.past ≠ []) (hu : u.past = []) (hw : w.future = []) :
    (undoSt^[fs.length] (applyMuts fs s)).rows = s.rows ∧
    (undoSt^[fs.length] (applyMuts fs s)).draft = s.draft ∧
    (redoSt (undoSt t)).rows = t.rows ∧ (redoSt (undoSt t)).draft = t.draft ∧
    (recordedMutation g x).future = [] ∧
    redoSt (recordedMutation g x) = recordedMutation g x ∧
    undoSt u = u ∧ redoSt w = w := by
  obtain ⟨fut, hf⟩ := undo_applyMuts fs s
  obtain ⟨tr, td, tp, tf⟩ := t
  have htp : tp ≠ [] := ht
  rcases List.eq_nil_or_concat tp with rfl | ⟨P, prev, rfl⟩
  · exact absurd rfl htp
  · refine ⟨by rw [hf], by rw [hf], ?_, ?_, rfl, rfl, ?_, ?_⟩
    · simp only [List.concat_eq_append]
      rw [undo_concat, redo_concat]
    · simp only [List.concat_eq_append]
      rw [undo_concat, redo_concat]
    · simp [undoSt, hu]
    · simp [redoSt, hw]

/-- C3 counterexample: importing a CSV whose row sorts before the one already present
leaves the repository unsorted — importCSV appends the decoded rows verbatim and never
re-sorts, so the order invariant fails after a CSV import. -/
theorem C3_counterexample :
    ¬ sortedByFileNo (importCSV "NOW" "fileNo\n\"250101_001\"" s3).rows := by decide

/-- C3 amended: the row list is sorted by the fileNo comparator after addRow (when
validation passes), after a confirmed delRow, and after editRow on a present id (a
cancelled delRow and a miss leave rows untouched); importCSV instead appends the
decoded rows to the existing ones without re-sorting. -/
theorem C3_sorted_after_ops (p i n now text rid rid2 : String) (s : AppState)
    (hv : s.draft.fileNo ≠ "")
    (he : (s.rows.find? (fun r => r.id == rid2)).isSome = true)
    (hi : fromCSV now (importText text) ≠ []) :
    sortedByFileNo (addRow p i n s).rows ∧
    sortedByFileNo (delRow true rid s).rows ∧
    (delRow false rid s).rows = s.rows ∧
    sortedByFileNo (editRow rid2 s).rows ∧
    (importCSV now text s).rows = s.rows ++ fromCSV now (importText text) := by
  refine ⟨?_, ?_, rfl, ?_, ?_⟩
  · simp only [addRow, pushHistorySt]
    split
    · next hc =>
      exfalso
      rcases hc with hc | hc | hc | hc
      · exact hv hc
      · exact combine_ne_empty _ _ hc
      · exact combine_ne_empty _ _ hc
      · exact intToStr_ne_empty _ hc
    · exact sortRows_sorted _
  · simp only [delRow, pushHistorySt, Bool.not_true]
    exact sortRows_sorted _
  · obtain ⟨r, hr⟩ := Option.isSome_iff_exists.1 he
    unfold editRow
    rw [hr]
    exact sortRows_sorted _
  · simp only [importCSV]
    rcases hl : fromCSV now (importText text) with _ | ⟨a, l⟩
    · exact absurd hl hi
    · simp

/-- Witness for C3_sorted_after_ops at concrete inputs. -/
theorem C3_sorted_after_ops_witness :
    (s0.draft.fileNo ≠ "" ∧
     (s0.rows.find? (fun r => r.id == "i1")).isSome = true ∧
     fromCSV "NOW" (importText "fileNo\n\"250101_003\"") ≠ []) ∧
    (sortedByFileNo (addRow "250101" "x3" "t1" s0).rows ∧
     sortedByFileNo (delRow true "i1" s0).rows ∧
     (delRow false "i1" s0).rows = s0.rows ∧
     sortedByFileNo (editRow "i1" s0).rows ∧
     (importCSV "NOW" "fileNo\n\"250101_003\"" s0).rows
        = s0.rows ++ fromCSV "NOW" (importText "fileNo\n\"250101_003\"")) := by
  have h := C3_sorted_after_ops "250101" "x3" "t1" "NOW" "fileNo\n\"250101_003\""
    "i1" "i1" s0 (by decide) (by decide) (by decide)
  exact ⟨⟨by decide, by decide, by decide⟩, h⟩

/-- C2: after a successful commit the draft advances exactly as the workflow says: an
OK status advances the cut by one (sentinel going to 1), clears the cut suffix and
resets take to 1 while leaving the scene alone; NG or KEEP leaves scene and cut alone
and increments take; and in every case the new draft file number is recomputed by the
sequence generator over the sorted row list that already contains the new row. -/
theorem C2_commit_advance (p i n : String) (s : AppState)
    (h : s.draft.fileNo ≠ "") :
    (s.draft.status = "OK" →
      (addRow p i n s).draft.cutNum
          = (if s.draft.cutNum = -1 then 1 else s.draft.cutNum + 1) ∧
      (addRow p i n s).draft.cutSuffix = "" ∧
      (addRow p i n s).draft.takeNum = 1 ∧
      (addRow p i n s).draft.sceneNum = s.draft.sceneNum ∧
      (addRow p i n s).draft.sceneSuffix = s.draft.sceneSuffix) ∧
    (s.draft.status ≠ "OK" →
      (addRow p i n s).draft.sceneNum = s.draft.sceneNum ∧
      (addRow p i n s).draft.sceneSuffix = s.draft.sceneSuffix ∧
      (addRow p i n s).draft.cutNum = s.draft.cutNum ∧
      (addRow p i n s).draft.cutSuffix = s.draft.cutSuffix ∧
      (addRow p i n s).draft.takeNum = s.draft.takeNum + 1) ∧
    (addRow p i n s).rows = sortRows (s.rows ++ [mkRowFromDraft i n s.draft]) ∧
    mkRowFromDraft i n s.draft ∈ (addRow p i n s).rows ∧
    (addRow p i n s).draft.fileNo = nextFileNo p (addRow p i n s).rows := by
  have hkey : addRow p i n s =
      { rows := sortRows (s.rows ++ [mkRowFromDraft i n s.draft]),
        draft := { (if s.draft.status = "OK" then
                      { s.draft with
                        cutNum := if s.draft.cutNum = -1 then 1
                                  else jsOrZero s.draft.cutNum + 1,
                        cutSuffix := "", takeNum := 1 }
                    else { s.draft with takeNum := s.draft.takeNum + 1 }) with
            fileNo := nextFileNo p (sortRows (s.rows ++ [mkRowFromDraft i n s.draft])) },
        past := s.past ++ [snapOf s], future := [] } := by
    simp only [addRow, pushHistorySt]
    split
    · next hc =>
      exfalso
      rcases hc with hc | hc | hc | hc
      · exact h hc
      · exact combine_ne_empty _ _ hc
      · exact combine_ne_empty _ _ hc
      · exact intToStr_ne_empty _ hc
    · rfl
  refine ⟨fun hOK => ?_, fun hNG => ?_, ?_, ?_, ?_⟩
  · rw [hkey]
    dsimp only
    rw [if_pos hOK]
    refine ⟨?_, rfl, rfl, rfl, rfl⟩
    dsimp only
    unfold jsOrZero
    split_ifs <;> omega
  · rw [hkey]
    dsimp only
    rw [if_neg hNG]
    exact ⟨rfl, rfl, rfl, rfl, rfl⟩
  · rw [hkey]
  · rw [hkey]
    exact (mem_sortRows _ _).2 (by simp)
  · rw [hkey]

/-- Witness for C2_commit_advance at the concrete OK-status state. -/
theorem C2_commit_advance_witness :
    (s0.draft.fileNo ≠ "" ∧ s0.draft.status = "OK") ∧
    ((addRow "250101" "x2" "t1" s0).draft.cutNum
        = (if s0.draft.cutNum = -1 then 1 else s0.draft.cutNum + 1) ∧
     mkRowFromDraft "x2" "t1" s0.draft ∈ (addRow "250101" "x2" "t1" s0).rows ∧
     (addRow "250101" "x2" "t1" s0).draft.fileNo
        = nextFileNo "250101" (addRow "250101" "x2" "t1" s0).rows) := by
  have h := C2_commit_advance "250101" "x2" "t1" s0 (by decide)
  exact ⟨⟨by decide, by decide⟩, (h.1 (by decide)).1, h.2.2.2.1, h.2.2.2.2⟩

/-- C6 counterexample: the token consisting of the single digit zero is a valid
identifier token of the claimed shape (a non-negative integer, no suffix, matched by
the recognized pattern), yet combine applied to its parse yields the token one, not
the token itself — the round trip fails at magnitude 0 because combine clamps the
magnitude to a minimum of 1. -/
theorem C6_counterexample :
    matchNumSuf "0".data = some ("0".data, []) ∧
    splitNumAndSuffix "0" = ⟨0, ""⟩ ∧
    combine (splitNumAndSuffix "0").num (splitNumAndSuffix "0").suffix = "1" ∧
    combine (splitNumAndSuffix "0").num (splitNumAndSuffix "0").suffix ≠ "0" := by
  decide

/-- C6 amended: the combine-after-parse round trip holds for every token whose numeric
part is a positive integer written canonically (no leading zeros) with an optional
suffix letter drawn from the UI choices, and for the sentinel token; moreover combine
of magnitude -1 re-emits the sentinel for every suffix. Tokens with magnitude 0 are
re-emitted as 1 (see the counterexample). -/
theorem C6_roundtrip (n : Nat) (sfx other : String) (h1 : 1 ≤ n)
    (h2 : sfx ∈ SUFFIXES) :
    combine (splitNumAndSuffix (String.mk (natToChars n) ++ sfx)).num
        (splitNumAndSuffix (String.mk (natToChars n) ++ sfx)).suffix
      = String.mk (natToChars n) ++ sfx ∧
    combine (splitNumAndSuffix sentinelToken).num
        (splitNumAndSuffix sentinelToken).suffix = sentinelToken ∧
    combine (-1) other = sentinelToken := by
  refine ⟨?_, by decide, rfl⟩
  rw [splitNumAndSuffix_canonical n sfx h2]
  exact combine_canonical n h1 sfx

/-- Witness for C6_roundtrip at the token three-a. -/
theorem C6_roundtrip_witness :
    (1 ≤ 3 ∧ "a" ∈ SUFFIXES) ∧
    (combine (splitNumAndSuffix (String.mk (natToChars 3) ++ "a")).num
        (splitNumAndSuffix (String.mk (natToChars 3) ++ "a")).suffix
      = String.mk (natToChars 3) ++ "a" ∧
     combine (splitNumAndSuffix sentinelToken).num
        (splitNumAndSuffix sentinelToken).suffix = sentinelToken ∧
     combine (-1) "b" = sentinelToken) :=
  ⟨⟨by decide, by decide⟩, C6_roundtrip 3 "a" "b" (by decide) (by decide)⟩

/-- C9 counterexample: a row whose note contains an embedded newline does not survive
the round trip — encoding collapses the newline to a space, so the decoded note
differs from the original in a field other than id and updatedAt, and the decoded
list is not the re-minted original. -/
theorem C9_counterexample :
    (fromCSV "NOW" (toCSV [r9])).map TakeRow.note = ["a b"] ∧ r9.note = "a\nb" ∧
    ("a b" : String) ≠ "a\nb" ∧
    fromCSV "NOW" (toCSV [r9]) ≠ [reMint "NOW" r9] := by decide

/-- C9 amended: for every row list whose textual fields are free of line breaks, whose
createdAt is nonempty and whose status is nonempty, decoding the encoded CSV gives
back exactly the original rows with a re-minted id and updatedAt and with the mic list
blank-filled (and truncated) to 8 slots. -/
theorem C9_roundtrip (now : String) (rows : List TakeRow)
    (h : ∀ r ∈ rows, cleanRow r) :
    fromCSV now (toCSV rows) = rows.map (reMint now) := by
  cases rows with
  | nil => rfl
  | cons r rs =>
    have hclean : ∀ p ∈ (joinCh ',' (csvHeaders.map String.data)
        :: (r :: rs).map encodeRowLine), '\n' ∉ p ∧ '\r' ∉ p := by
      intro p hp
      rcases List.mem_cons.1 hp with rfl | hp
      · exact ⟨by decide, by decide⟩
      · simp only [List.mem_map] at hp
        obtain ⟨x, hx, rfl⟩ := hp
        exact ⟨no_nl_encodeRowLine x, no_cr_encodeRowLine x (h x hx)⟩
    have hkeep : ∀ p ∈ (joinCh ',' (csvHeaders.map String.data)
        :: (r :: rs).map encodeRowLine), keepLine p = true := by
      intro p hp
      rcases List.mem_cons.1 hp with rfl | hp
      · decide
      · simp only [List.mem_map] at hp
        obtain ⟨x, hx, rfl⟩ := hp
        exact keepLine_encodeRowLine x
    have hlen : ¬ ((joinCh ',' (csvHeaders.map String.data)
        :: (r :: rs).map encodeRowLine).length < 2) := by
      simp only [List.length_cons, List.length_map]
      omega
    simp only [toCSV, fromCSV]
    rw [splitLines_joinCh _ (by simp) hclean, List.filter_eq_self.2 hkeep,
      if_neg hlen]
    simp only [List.getD_cons_zero, List.drop_succ_cons, List.drop_zero]
    rw [headersParsed, List.map_map]
    exact List.map_congr_left (fun x hx => decodeLine_encode now x (h x hx))

/-- Witness for C9_roundtrip at a concrete one-row list. -/
theorem C9_roundtrip_witness :
    (∀ r ∈ [r0], cleanRow r) ∧
    fromCSV "NOW" (toCSV [r0]) = [r0].map (reMint "NOW") :=
  ⟨by decide, C9_roundtrip "NOW" [r0] (by decide)⟩

/-- Witness for C5_undo_redo at concrete states. -/
theorem C5_undo_redo_witness :
    (t0.past ≠ [] ∧ u0.past = [] ∧ w0.future = []) ∧
    ((redoSt (undoSt t0)).rows = t0.rows ∧ (redoSt (undoSt t0)).draft = t0.draft ∧
     undoSt u0 = u0 ∧ redoSt w0 = w0) := by
  have h := C5_undo_redo [] s0 t0 u0 w0 u0 (fun r d => (r, d))
    (by decide) (by decide) (by decide)
  exact ⟨⟨by decide, by decide, by decide⟩,
    h.2.2.1, h.2.2.2.1, h.2.2.2.2.2.2.1, h.2.2.2.2.2.2.2⟩

end FieldTakes
